import Mathlib

/-!
Verification of the Turboshaft opmask core
(`src/compiler/turboshaft/opmasks.h`).

The source builds, for an operation type and a list of field descriptors,
a 64-bit selector mask and a 64-bit expected pattern; a record matches a
shape mask iff `(w & mask) == pattern` where `w` is the record's leading
8-byte word.  We embed the mask/pattern construction over `Nat`, with
explicit `% 2^64` where the C++ `uint64_t` arithmetic could wrap.
-/

namespace Opmask

/-- `kBitsPerByte` from the V8 sources: 8 bits per byte. -/
def kBitsPerByte : Nat := 8

/-- `OpMaskField<T, Offset>`: the descriptor of one field of an operation
record, reduced to its two numeric members `offset` and `size = sizeof(T)`
(both in bytes).  The C++ type carries `static_assert(offset + size <= 8)`;
we carry that bound as a hypothesis of the theorems. -/
structure OpMaskField where
  offset : Nat
  size : Nat
deriving DecidableEq

/-- Well-formedness of a field descriptor, collecting the source's
`static_assert`s (`offset + size <= sizeof(uint64_t)` in `OpMaskField`,
`size < sizeof(uint64_t)` in `BuildFieldMask`) together with the facts that
a C++ type has `sizeof >= 1` and that a field of the derived operation
lives after the opcode byte at offset 0. -/
def OpMaskField.wf (F : OpMaskField) : Prop :=
  1 ≤ F.size ∧ F.size < 8 ∧ F.offset + F.size ≤ 8 ∧ 1 ≤ F.offset

instance (F : OpMaskField) : Decidable F.wf := by
  unfold OpMaskField.wf; infer_instance

/-- `encode_for_mask(value)`: `static_cast<uint64_t>(value)`.  The argument
is the field value already converted to an unsigned integer; the cast
reduces it modulo `2^64`. -/
def encode_for_mask (value : Nat) : Nat :=
  value % 2 ^ 64

/-- `MaskBuilder::BuildBaseMask()`: the mask of the opcode byte,
`0xFF` at offset 0. -/
def BuildBaseMask : Nat := 0xFF

/-- `MaskBuilder::EncodeBaseValue(opcode)`:
`static_cast<uint64_t>(opcode)`. -/
def EncodeBaseValue (opcode : Nat) : Nat :=
  opcode % 2 ^ 64

/-- `MaskBuilder::BuildFieldMask<F>()`:
`ones = uint64_t(-1) >> ((8 - F::size) * kBitsPerByte)` followed by
`ones << (F::offset * kBitsPerByte)` in `uint64_t` arithmetic. -/
def BuildFieldMask (F : OpMaskField) : Nat :=
  let ones : Nat := (2 ^ 64 - 1) >>> ((8 - F.size) * kBitsPerByte)
  (ones <<< (F.offset * kBitsPerByte)) % 2 ^ 64

/-- `MaskBuilder::EncodeFieldValue<F>(value)`:
`encode_for_mask(value) << (F::offset * kBitsPerByte)` in `uint64_t`
arithmetic.  Note: the source applies no width mask to the value. -/
def EncodeFieldValue (F : OpMaskField) (value : Nat) : Nat :=
  (encode_for_mask value <<< (F.offset * kBitsPerByte)) % 2 ^ 64

/-- `MaskBuilder::BuildMask()`: the left fold
`(BuildBaseMask() | ... | BuildFieldMask<Fields>())` over the declared
field pack. -/
def BuildMask (fields : List OpMaskField) : Nat :=
  fields.foldl (fun acc F => acc ||| BuildFieldMask F) BuildBaseMask

/-- `MaskBuilder::EncodeValue(args...)`: the left fold
`(EncodeBaseValue(opcode) | ... | EncodeFieldValue<Fields>(args))`, one
argument per declared field in declaration order. -/
def EncodeValue (opcode : Nat) (fields : List OpMaskField) (args : List Nat) : Nat :=
  (fields.zip args).foldl (fun acc p => acc ||| EncodeFieldValue p.1 p.2)
    (EncodeBaseValue opcode)

/-- `OpMaskT<Op, Mask, Value>`: a finalized shape mask, the pair of the
selector mask and the expected pattern (the owning type is carried by the
opcode baked into the pattern). -/
structure ShapeMask where
  mask : Nat
  pattern : Nat
deriving DecidableEq

/-- `MaskBuilder::For<Args...>`:
`OpMaskT<Op, BuildMask(), EncodeValue(Args...)>`. -/
def For (opcode : Nat) (fields : List OpMaskField) (args : List Nat) : ShapeMask :=
  ⟨BuildMask fields, EncodeValue opcode fields args⟩

/-- Modelled from the spec: `Operation::Is<M>` lives in `operations.h`,
which is not part of this repository snapshot; the spec states it loads
the record's leading 8 bytes as an unsigned 64-bit word `w` and returns
`(w & selector_mask) == pattern`. -/
def Test (M : ShapeMask) (w : Nat) : Bool :=
  (w &&& M.mask) == M.pattern

/-- Modelled from the spec: `Operation::TryCast<M>` lives in
`operations.h`, which is not part of this repository snapshot; the spec
states it performs `Test` and on success returns a reference to the same
record reinterpreted as the owning type, on failure an empty result.  The
typed reference is modelled as the record's leading word itself, wrapped
in `Option`. -/
def TryCast (M : ShapeMask) (w : Nat) : Option Nat :=
  if Test M w then some w else none

/-- The bytes a record's leading word `w` holds at field `F`: shift right
by the field's bit offset and truncate to the field's bit width.  Used to
state what a mask match says about the record. -/
def extractField (w : Nat) (F : OpMaskField) : Nat :=
  (w >>> (F.offset * kBitsPerByte)) % 2 ^ (F.size * kBitsPerByte)

/-- Two field descriptors occupy disjoint byte ranges. -/
def disjointFields (F G : OpMaskField) : Prop :=
  F.offset + F.size ≤ G.offset ∨ G.offset + G.size ≤ F.offset

instance (F G : OpMaskField) : Decidable (disjointFields F G) := by
  unfold disjointFields; infer_instance

/-- The OR of the field masks of a descriptor list (the non-opcode part of
`BuildMask`, written as a right fold for the proofs). -/
def maskOr (fs : List OpMaskField) : Nat :=
  fs.foldr (fun F acc => BuildFieldMask F ||| acc) 0

/-- The OR of the encoded field values of a (descriptor, value) list (the
non-opcode part of `EncodeValue`, written as a right fold). -/
def patternOr (fvs : List (OpMaskField × Nat)) : Nat :=
  fvs.foldr (fun p acc => EncodeFieldValue p.1 p.2 ||| acc) 0

/-! ### Bitwise helper lemmas -/

lemma bit_of_eq {a b : Nat} (h : a = b) (j : Nat) : a.testBit j = b.testBit j := by
  rw [h]

lemma and_or_distrib_left (a b c : Nat) :
    a &&& (b ||| c) = (a &&& b) ||| (a &&& c) := by
  apply Nat.eq_of_testBit_eq; intro j
  simp only [Nat.testBit_and, Nat.testBit_or, Bool.and_or_distrib_left]

/-- Splitting a mask-and-pattern comparison over two disjoint submasks. -/
lemma test_or_split {m1 m2 p1 p2 : Nat} (w : Nat)
    (hm : m1 &&& m2 = 0) (hp1 : p1 &&& m1 = p1) (hp2 : p2 &&& m2 = p2) :
    w &&& (m1 ||| m2) = p1 ||| p2 ↔ (w &&& m1 = p1 ∧ w &&& m2 = p2) := by
  constructor
  · intro h
    refine ⟨Nat.eq_of_testBit_eq fun j => ?_, Nat.eq_of_testBit_eq fun j => ?_⟩ <;>
    · have h1 := bit_of_eq h j
      have h2 := bit_of_eq hm j
      have h3 := bit_of_eq hp1 j
      have h4 := bit_of_eq hp2 j
      simp only [Nat.testBit_and, Nat.testBit_or, Nat.zero_testBit] at h1 h2 h3 h4 ⊢
      revert h1 h2 h3 h4
      cases w.testBit j <;> cases m1.testBit j <;> cases m2.testBit j <;>
        cases p1.testBit j <;> cases p2.testBit j <;> decide
  · rintro ⟨h1, h2⟩
    rw [and_or_distrib_left, h1, h2]

lemma submask_or {p1 m1 p2 m2 : Nat} (h1 : p1 &&& m1 = p1) (h2 : p2 &&& m2 = p2) :
    (p1 ||| p2) &&& (m1 ||| m2) = p1 ||| p2 := by
  apply Nat.eq_of_testBit_eq; intro j
  have e1 := bit_of_eq h1 j
  have e2 := bit_of_eq h2 j
  simp only [Nat.testBit_and, Nat.testBit_or] at e1 e2 ⊢
  revert e1 e2
  cases p1.testBit j <;> cases p2.testBit j <;> cases m1.testBit j <;>
    cases m2.testBit j <;> decide

/-! ### The shape of a single field mask -/

lemma ones_eq {s : Nat} (hs : s ≤ 8) :
    (2 ^ 64 - 1) >>> ((8 - s) * kBitsPerByte) = 2 ^ (s * 8) - 1 := by
  apply Nat.eq_of_testBit_eq; intro j
  rw [Nat.testBit_shiftRight, Nat.testBit_two_pow_sub_one, Nat.testBit_two_pow_sub_one]
  simp only [kBitsPerByte, decide_eq_decide]
  omega

lemma BuildFieldMask_eq {F : OpMaskField} (h8 : F.offset + F.size ≤ 8) :
    BuildFieldMask F = (2 ^ (F.size * 8) - 1) <<< (F.offset * 8) := by
  unfold BuildFieldMask
  rw [ones_eq (by omega)]
  simp only [kBitsPerByte]
  apply Nat.mod_eq_of_lt
  rw [Nat.shiftLeft_eq]
  have h1 : (2 ^ (F.size * 8) - 1) * 2 ^ (F.offset * 8) <
      2 ^ (F.size * 8) * 2 ^ (F.offset * 8) :=
    mul_lt_mul_of_pos_right (by have := pow_pos (show (0:Nat) < 2 by norm_num) (F.size * 8); omega)
      (pow_pos (by norm_num) _)
  have h2 : 2 ^ (F.size * 8) * 2 ^ (F.offset * 8) ≤ 2 ^ 64 := by
    rw [← pow_add]
    exact Nat.pow_le_pow_right (by norm_num) (by omega)
  exact lt_of_lt_of_le h1 h2

lemma testBit_BuildFieldMask {F : OpMaskField} (h8 : F.offset + F.size ≤ 8) (j : Nat) :
    (BuildFieldMask F).testBit j =
      decide (F.offset * 8 ≤ j ∧ j < F.offset * 8 + F.size * 8) := by
  rw [BuildFieldMask_eq h8, Nat.testBit_shiftLeft, Nat.testBit_two_pow_sub_one]
  by_cases h : F.offset * 8 ≤ j
  · have e : (j - F.offset * 8 < F.size * 8) =
        (F.offset * 8 ≤ j ∧ j < F.offset * 8 + F.size * 8) := by
      apply propext; constructor
      · intro hlt; exact ⟨h, by omega⟩
      · intro hc; omega
    simp [h, e]
  · have e : ¬(F.offset * 8 ≤ j ∧ j < F.offset * 8 + F.size * 8) := by omega
    simp [h, e]

/-- The window identity: ANDing with a contiguous byte window extracts the
window's bits in place. -/
lemma and_window (w k m : Nat) :
    w &&& ((2 ^ m - 1) <<< k) = ((w >>> k) % 2 ^ m) <<< k := by
  apply Nat.eq_of_testBit_eq; intro j
  rw [Nat.testBit_and, Nat.testBit_shiftLeft, Nat.testBit_shiftLeft,
    Nat.testBit_two_pow_sub_one, Nat.testBit_mod_two_pow, Nat.testBit_shiftRight]
  by_cases hk : k ≤ j
  · rw [Nat.add_sub_cancel' hk]
    simp only [hk, decide_True, Bool.true_and]
    cases w.testBit j <;> cases decide (j - k < m) <;> simp
  · simp [hk]

lemma shiftLeft_inj {a b k : Nat} (h : a <<< k = b <<< k) : a = b := by
  rw [Nat.shiftLeft_eq, Nat.shiftLeft_eq] at h
  exact Nat.eq_of_mul_eq_mul_right (pow_pos (by norm_num) _) h

lemma shiftLeft_shiftRight_self (a k : Nat) : (a <<< k) >>> k = a := by
  rw [Nat.shiftLeft_eq, Nat.shiftRight_eq_div_pow]
  exact Nat.mul_div_cancel a (pow_pos (by norm_num) _)

/-! ### Encoded field values -/

lemma encode_for_mask_eq {v : Nat} (hv : v < 2 ^ 64) : encode_for_mask v = v :=
  Nat.mod_eq_of_lt hv

lemma EncodeFieldValue_eq {F : OpMaskField} {v : Nat} (h8 : F.offset + F.size ≤ 8)
    (hv : v < 2 ^ (F.size * 8)) :
    EncodeFieldValue F v = v <<< (F.offset * 8) := by
  unfold EncodeFieldValue
  have hv64 : v < 2 ^ 64 :=
    lt_of_lt_of_le hv (Nat.pow_le_pow_right (by norm_num) (by omega))
  rw [encode_for_mask_eq hv64]
  simp only [kBitsPerByte]
  apply Nat.mod_eq_of_lt
  rw [Nat.shiftLeft_eq]
  have h1 : v * 2 ^ (F.offset * 8) < 2 ^ (F.size * 8) * 2 ^ (F.offset * 8) :=
    mul_lt_mul_of_pos_right hv (pow_pos (by norm_num) _)
  have h2 : 2 ^ (F.size * 8) * 2 ^ (F.offset * 8) ≤ 2 ^ 64 := by
    rw [← pow_add]
    exact Nat.pow_le_pow_right (by norm_num) (by omega)
  exact lt_of_lt_of_le h1 h2

/-- Testing a single field window against a single encoded value is exactly
equality of the extracted field bytes with the value. -/
lemma field_test_iff {F : OpMaskField} {v : Nat} (w : Nat) (h8 : F.offset + F.size ≤ 8)
    (hv : v < 2 ^ (F.size * 8)) :
    w &&& BuildFieldMask F = EncodeFieldValue F v ↔ extractField w F = v := by
  rw [EncodeFieldValue_eq h8 hv, BuildFieldMask_eq h8, and_window]
  unfold extractField
  simp only [kBitsPerByte]
  constructor
  · intro h; exact shiftLeft_inj h
  · intro h; rw [h]

lemma encode_submask {F : OpMaskField} {v : Nat} (h8 : F.offset + F.size ≤ 8)
    (hv : v < 2 ^ (F.size * 8)) :
    EncodeFieldValue F v &&& BuildFieldMask F = EncodeFieldValue F v := by
  rw [EncodeFieldValue_eq h8 hv, BuildFieldMask_eq h8, and_window,
    shiftLeft_shiftRight_self, Nat.mod_eq_of_lt hv]

/-! ### The opcode byte -/

lemma testBit_baseMask (j : Nat) : BuildBaseMask.testBit j = decide (j < 8) := by
  have h : BuildBaseMask = 2 ^ 8 - 1 := by norm_num [BuildBaseMask]
  rw [h, Nat.testBit_two_pow_sub_one]

lemma and_baseMask (w : Nat) : w &&& BuildBaseMask = w % 256 := by
  have h : BuildBaseMask = (2 ^ 8 - 1) <<< 0 := by norm_num [BuildBaseMask]
  rw [h, and_window, Nat.shiftLeft_zero, Nat.shiftRight_zero]
  norm_num

lemma EncodeBaseValue_eq {op : Nat} (hop : op < 256) : EncodeBaseValue op = op := by
  unfold EncodeBaseValue
  exact Nat.mod_eq_of_lt (lt_of_lt_of_le hop (by norm_num))

lemma base_test_iff {op : Nat} (w : Nat) (hop : op < 256) :
    w &&& BuildBaseMask = EncodeBaseValue op ↔ w % 256 = op := by
  rw [and_baseMask, EncodeBaseValue_eq hop]

lemma base_submask {op : Nat} (hop : op < 256) :
    EncodeBaseValue op &&& BuildBaseMask = EncodeBaseValue op := by
  rw [and_baseMask, EncodeBaseValue_eq hop, Nat.mod_eq_of_lt hop]

/-! ### Disjointness of mask components -/

lemma fieldMask_disjoint {F G : OpMaskField} (hF : F.offset + F.size ≤ 8)
    (hG : G.offset + G.size ≤ 8) (hd : disjointFields F G) :
    BuildFieldMask F &&& BuildFieldMask G = 0 := by
  apply Nat.eq_of_testBit_eq; intro j
  rw [Nat.testBit_and, testBit_BuildFieldMask hF j, testBit_BuildFieldMask hG j,
    Nat.zero_testBit, ← Bool.decide_and, decide_eq_false_iff_not]
  unfold disjointFields at hd
  omega

lemma baseMask_fieldMask_disjoint {F : OpMaskField} (h8 : F.offset + F.size ≤ 8)
    (h1 : 1 ≤ F.offset) :
    BuildBaseMask &&& BuildFieldMask F = 0 := by
  apply Nat.eq_of_testBit_eq; intro j
  rw [Nat.testBit_and, testBit_baseMask, testBit_BuildFieldMask h8 j,
    Nat.zero_testBit, ← Bool.decide_and, decide_eq_false_iff_not]
  omega

lemma and_maskOr_eq_zero {a : Nat} {fs : List OpMaskField}
    (h : ∀ G ∈ fs, a &&& BuildFieldMask G = 0) : a &&& maskOr fs = 0 := by
  induction fs with
  | nil => simp [maskOr]
  | cons G fs ih =>
    show a &&& (BuildFieldMask G ||| maskOr fs) = 0
    rw [and_or_distrib_left, h G (by simp),
      ih (fun G' hG' => h G' (by simp [hG']))]
    simp

/-! ### Fold decompositions -/

lemma foldl_or_eq {α : Type} (f : α → Nat) (l : List α) (a : Nat) :
    l.foldl (fun acc x => acc ||| f x) a = a ||| l.foldr (fun x acc => f x ||| acc) 0 := by
  induction l generalizing a with
  | nil => simp
  | cons x l ih =>
    show List.foldl _ (a ||| f x) l = _
    rw [ih (a ||| f x)]
    simp [Nat.or_assoc]

lemma BuildMask_eq (fs : List OpMaskField) :
    BuildMask fs = BuildBaseMask ||| maskOr fs :=
  foldl_or_eq BuildFieldMask fs BuildBaseMask

lemma EncodeValue_eq (op : Nat) (fs : List OpMaskField) (vs : List Nat) :
    EncodeValue op fs vs = EncodeBaseValue op ||| patternOr (fs.zip vs) :=
  foldl_or_eq (fun p : OpMaskField × Nat => EncodeFieldValue p.1 p.2) (fs.zip vs)
    (EncodeBaseValue op)

/-! ### The main soundness lemma -/

lemma patternOr_submask {fs : List OpMaskField} {vs : List Nat}
    (hwf : ∀ F ∈ fs, F.offset + F.size ≤ 8)
    (hr : List.Forall₂ (fun F v => v < 2 ^ (F.size * 8)) fs vs) :
    patternOr (fs.zip vs) &&& maskOr fs = patternOr (fs.zip vs) := by
  induction hr with
  | nil => simp [patternOr, maskOr]
  | @cons F v fs vs hv hr ih =>
    show (EncodeFieldValue F v ||| patternOr (fs.zip vs)) &&&
        (BuildFieldMask F ||| maskOr fs) = _
    exact submask_or (encode_submask (hwf F (by simp)) hv)
      (ih (fun G hG => hwf G (by simp [hG])))

lemma fields_test_iff {fs : List OpMaskField} {vs : List Nat} (w : Nat)
    (hwf : ∀ F ∈ fs, F.offset + F.size ≤ 8)
    (hdisj : fs.Pairwise disjointFields)
    (hr : List.Forall₂ (fun F v => v < 2 ^ (F.size * 8)) fs vs) :
    w &&& maskOr fs = patternOr (fs.zip vs) ↔
      List.Forall₂ (fun F v => extractField w F = v) fs vs := by
  induction hr with
  | nil => simp [maskOr, patternOr]
  | @cons F v fs vs hv hr ih =>
    have hwfF := hwf F (by simp)
    have hwf' : ∀ G ∈ fs, G.offset + G.size ≤ 8 := fun G hG => hwf G (by simp [hG])
    have hdF : ∀ G ∈ fs, disjointFields F G :=
      fun G hG => (List.pairwise_cons.mp hdisj).1 G hG
    have hdisj' := (List.pairwise_cons.mp hdisj).2
    show w &&& (BuildFieldMask F ||| maskOr fs) =
        EncodeFieldValue F v ||| patternOr (fs.zip vs) ↔ _
    rw [test_or_split w
        (and_maskOr_eq_zero fun G hG => fieldMask_disjoint hwfF (hwf' G hG) (hdF G hG))
        (encode_submask hwfF hv)
        (patternOr_submask hwf' hr),
      field_test_iff w hwfF hv, ih hwf' hdisj']
    simp [List.forall₂_cons]

/-- Soundness of the membership test, stated over the embedded builder:
`Test` holds iff the record's opcode byte is the builder's opcode and every
declared field of the record holds the value baked into the mask. -/
lemma test_iff {op : Nat} {fs : List OpMaskField} {vs : List Nat} (w : Nat)
    (hop : op < 256)
    (hwf : ∀ F ∈ fs, F.offset + F.size ≤ 8 ∧ 1 ≤ F.offset)
    (hdisj : fs.Pairwise disjointFields)
    (hr : List.Forall₂ (fun F v => v < 2 ^ (F.size * 8)) fs vs) :
    Test (For op fs vs) w = true ↔
      (w % 256 = op ∧ List.Forall₂ (fun F v => extractField w F = v) fs vs) := by
  show ((w &&& BuildMask fs) == EncodeValue op fs vs) = true ↔ _
  rw [beq_iff_eq, BuildMask_eq, EncodeValue_eq,
    test_or_split w
      (and_maskOr_eq_zero fun G hG =>
        baseMask_fieldMask_disjoint (hwf G hG).1 (hwf G hG).2)
      (base_submask hop)
      (patternOr_submask (fun G hG => (hwf G hG).1) hr),
    base_test_iff w hop,
    fields_test_iff w (fun G hG => (hwf G hG).1) hdisj hr]

/-! ### Permutation invariance of the OR folds -/

lemma maskOr_perm {l1 l2 : List OpMaskField} (h : l1.Perm l2) :
    maskOr l1 = maskOr l2 := by
  induction h with
  | nil => rfl
  | cons x _ ih =>
    show BuildFieldMask x ||| maskOr _ = BuildFieldMask x ||| maskOr _
    rw [ih]
  | swap x y l =>
    show BuildFieldMask y ||| (BuildFieldMask x ||| maskOr l) =
      BuildFieldMask x ||| (BuildFieldMask y ||| maskOr l)
    rw [← Nat.or_assoc, ← Nat.or_assoc, Nat.or_comm (BuildFieldMask y) (BuildFieldMask x)]
  | trans _ _ ih1 ih2 => rw [ih1, ih2]

lemma patternOr_perm {l1 l2 : List (OpMaskField × Nat)} (h : l1.Perm l2) :
    patternOr l1 = patternOr l2 := by
  induction h with
  | nil => rfl
  | cons x _ ih =>
    show EncodeFieldValue x.1 x.2 ||| patternOr _ = EncodeFieldValue x.1 x.2 ||| patternOr _
    rw [ih]
  | swap x y l =>
    show EncodeFieldValue y.1 y.2 ||| (EncodeFieldValue x.1 x.2 ||| patternOr l) =
      EncodeFieldValue x.1 x.2 ||| (EncodeFieldValue y.1 y.2 ||| patternOr l)
    rw [← Nat.or_assoc, ← Nat.or_assoc,
      Nat.or_comm (EncodeFieldValue y.1 y.2) (EncodeFieldValue x.1 x.2)]
  | trans _ _ ih1 ih2 => rw [ih1, ih2]

/-! ### Size bounds and extraction helpers -/

lemma patternOr_lt (l : List (OpMaskField × Nat)) : patternOr l < 2 ^ 64 := by
  induction l with
  | nil => norm_num [patternOr]
  | cons p l ih =>
    show EncodeFieldValue p.1 p.2 ||| patternOr l < 2 ^ 64
    exact Nat.or_lt_two_pow (Nat.mod_lt _ (by norm_num)) ih

lemma encodeValue_lt (op : Nat) (fs : List OpMaskField) (vs : List Nat) :
    EncodeValue op fs vs < 2 ^ 64 := by
  rw [EncodeValue_eq]
  exact Nat.or_lt_two_pow (Nat.mod_lt _ (by norm_num)) (patternOr_lt _)

lemma forall2_eq_map {w : Nat} {fs : List OpMaskField} {vs : List Nat}
    (h : List.Forall₂ (fun F v => extractField w F = v) fs vs) :
    vs = fs.map fun F => extractField w F := by
  induction h with
  | nil => rfl
  | @cons F v fs vs h1 _ ih =>
    show v :: vs = extractField w F :: fs.map _
    rw [← h1, ih]

/-! ## Claim theorems -/

/-- C1: Soundness of the membership test: for every operation record whose
declared fields lie within the leading 8-byte word (well-formed: after the
opcode byte, pairwise disjoint) and every shape mask built by
`MaskBuilder::For` with each value in the range representable by its
field's byte width, `Test` — computed as `(w &&& selector_mask) == pattern`
on the record's leading 64-bit word `w` — returns true iff the record's
opcode byte equals the builder's opcode constant and, for every field, the
record's bytes at that field's offset and width equal the baked-in value. -/
theorem C1_test_soundness {op : Nat} {fs : List OpMaskField} {vs : List Nat} (w : Nat)
    (hop : op < 256)
    (hwf : ∀ F ∈ fs, F.wf)
    (hdisj : fs.Pairwise disjointFields)
    (hr : List.Forall₂ (fun F v => v < 2 ^ (F.size * 8)) fs vs) :
    Test (For op fs vs) w = true ↔
      (w % 256 = op ∧ List.Forall₂ (fun F v => extractField w F = v) fs vs) :=
  test_iff w hop (fun F hF => ⟨(hwf F hF).2.2.1, (hwf F hF).2.2.2⟩) hdisj hr

/-- Witness for C1 at the spec's concrete scenario: opcode 2, a kind field
at byte 1 and a rep field at byte 2, both value 0, record word 2. -/
theorem C1_test_soundness_witness :
    Test (For 2 [⟨1, 1⟩, ⟨2, 1⟩] [0, 0]) 2 = true ↔
      (2 % 256 = 2 ∧
        List.Forall₂ (fun F v => extractField 2 F = v) [⟨1, 1⟩, ⟨2, 1⟩] [0, 0]) :=
  C1_test_soundness 2 (by decide) (by decide) (by decide) (by decide)

/-- C2 counterexample: the claim says each value is masked to its field's
declared byte width before shifting, so no bits land outside the field's
byte window even when the converted value has bits above that width.  The
source applies no such mask: for a one-byte field at offset 1 and the
converted value `2^64 - 1` (the `uint64_t` conversion of a one-byte signed
value `-1`), the encoded pattern differs from the claimed masked form and
has bits outside the selector mask. -/
theorem C2_counterexample :
    EncodeValue 2 [⟨1, 1⟩] [2 ^ 64 - 1] ≠
        2 ||| (((2 ^ 64 - 1) % 2 ^ (1 * 8)) <<< (1 * 8)) ∧
      EncodeValue 2 [⟨1, 1⟩] [2 ^ 64 - 1] &&& ((2 ^ 64 - 1) ^^^ BuildMask [⟨1, 1⟩]) ≠ 0 := by
  decide

/-- C2 (amended): `EncodeValue` returns the opcode constant OR-combined
with each converted value shifted left by its field's byte offset, with no
masking to the field's declared width; when every converted value is
within the range representable by its field's byte width, no bits of any
encoded value land outside its field's byte window (the pattern stays
inside the selector mask). -/
theorem C2_encode_unmasked {op : Nat} {fs : List OpMaskField} {vs : List Nat}
    (hop : op < 256)
    (hwf : ∀ F ∈ fs, F.offset + F.size ≤ 8)
    (hr : List.Forall₂ (fun F v => v < 2 ^ (F.size * 8)) fs vs) :
    EncodeValue op fs vs =
        (fs.zip vs).foldl (fun acc p => acc ||| (p.2 <<< (p.1.offset * 8))) op ∧
      EncodeValue op fs vs &&& BuildMask fs = EncodeValue op fs vs := by
  constructor
  · unfold EncodeValue
    rw [EncodeBaseValue_eq hop]
    apply List.foldl_ext
    intro a p hp
    have hmem := List.of_mem_zip hp
    have hrel : p.2 < 2 ^ (p.1.size * 8) := by
      rcases List.forall₂_iff_zip.mp hr with ⟨-, hz⟩
      exact hz hp
    rw [EncodeFieldValue_eq (hwf p.1 hmem.1) hrel]
  · rw [EncodeValue_eq, BuildMask_eq]
    exact submask_or (base_submask hop) (patternOr_submask hwf hr)

/-- Witness for C2 (amended) at opcode 2, fields at bytes 1 and 2,
values 3 and 4. -/
theorem C2_encode_unmasked_witness :
    EncodeValue 2 [⟨1, 1⟩, ⟨2, 1⟩] [3, 4] =
        ([(⟨1, 1⟩ : OpMaskField), ⟨2, 1⟩].zip [3, 4]).foldl
          (fun acc p => acc ||| (p.2 <<< (p.1.offset * 8))) 2 ∧
      EncodeValue 2 [⟨1, 1⟩, ⟨2, 1⟩] [3, 4] &&& BuildMask [⟨1, 1⟩, ⟨2, 1⟩] =
        EncodeValue 2 [⟨1, 1⟩, ⟨2, 1⟩] [3, 4] :=
  C2_encode_unmasked (by decide) (by decide) (by decide)

/-- C3: shape mask invariant: for every mask produced by
`MaskBuilder::For` with each value within the range representable by its
field's byte width, the expected pattern has no bits outside the selector
mask: `EncodeValue(values) & ~BuildMask() == 0` (complement taken within
the 64-bit word). -/
theorem C3_pattern_within_mask {op : Nat} {fs : List OpMaskField} {vs : List Nat}
    (hop : op < 256)
    (hwf : ∀ F ∈ fs, F.offset + F.size ≤ 8)
    (hr : List.Forall₂ (fun F v => v < 2 ^ (F.size * 8)) fs vs) :
    EncodeValue op fs vs &&& ((2 ^ 64 - 1) ^^^ BuildMask fs) = 0 := by
  have hsub : EncodeValue op fs vs &&& BuildMask fs = EncodeValue op fs vs := by
    rw [EncodeValue_eq, BuildMask_eq]
    exact submask_or (base_submask hop) (patternOr_submask hwf hr)
  have hlt := encodeValue_lt op fs vs
  apply Nat.eq_of_testBit_eq; intro j
  have hb := bit_of_eq hsub j
  rw [Nat.testBit_and] at hb
  rw [Nat.testBit_and, Nat.testBit_xor, Nat.testBit_two_pow_sub_one, Nat.zero_testBit]
  by_cases hj : j < 64
  · simp only [hj, decide_True]
    revert hb
    cases (EncodeValue op fs vs).testBit j <;> cases (BuildMask fs).testBit j <;> decide
  · have : (EncodeValue op fs vs).testBit j = false :=
      Nat.testBit_lt_two_pow
        (lt_of_lt_of_le hlt (Nat.pow_le_pow_right (by norm_num) (by omega)))
    simp [this]

/-- Witness for C3 at opcode 2, fields at bytes 1 and 2, values 3 and 4. -/
theorem C3_pattern_within_mask_witness :
    EncodeValue 2 [⟨1, 1⟩, ⟨2, 1⟩] [3, 4] &&&
      ((2 ^ 64 - 1) ^^^ BuildMask [⟨1, 1⟩, ⟨2, 1⟩]) = 0 :=
  C3_pattern_within_mask (by decide) (by decide) (by decide)

/-- C4: selector mask structure and determinism: for a fixed list of field
descriptors (each with `size < 8` and `offset + size ≤ 8`), `BuildMask()`
equals the OR of `0xFF` (the opcode byte at offset 0) and, for each field,
a contiguous run of `8*size` one-bits shifted left by `8*offset` bits; in
particular the result's low byte is always `0xFF`. -/
theorem C4_mask_structure {fs : List OpMaskField}
    (hwf : ∀ F ∈ fs, F.size < 8 ∧ F.offset + F.size ≤ 8) :
    BuildMask fs =
        fs.foldl (fun acc F => acc ||| ((2 ^ (F.size * 8) - 1) <<< (F.offset * 8))) 0xFF ∧
      BuildMask fs % 256 = 0xFF := by
  constructor
  · unfold BuildMask
    apply List.foldl_ext
    intro a F hF
    rw [BuildFieldMask_eq (hwf F hF).2]
  · rw [BuildMask_eq fs]
    have h256 : (256 : Nat) = 2 ^ 8 := by norm_num
    have hFF : (0xFF : Nat) = 2 ^ 8 - 1 := by norm_num
    rw [h256, hFF]
    apply Nat.eq_of_testBit_eq; intro j
    rw [Nat.testBit_mod_two_pow, Nat.testBit_or, testBit_baseMask,
      Nat.testBit_two_pow_sub_one]
    cases h : decide (j < 8) <;> simp [h]

/-- Witness for C4 at the two-field descriptor list of the spec's
scenario. -/
theorem C4_mask_structure_witness :
    BuildMask [⟨1, 1⟩, ⟨2, 1⟩] =
        ([(⟨1, 1⟩ : OpMaskField), ⟨2, 1⟩]).foldl
          (fun acc F => acc ||| ((2 ^ (F.size * 8) - 1) <<< (F.offset * 8))) 0xFF ∧
      BuildMask [⟨1, 1⟩, ⟨2, 1⟩] % 256 = 0xFF :=
  C4_mask_structure (by decide)

/-- C5: order independence: two builders over the same set of field
descriptors declared in different orders, invoked with correspondingly
reordered arguments, produce bit-identical selector masks and
bit-identical patterns. -/
theorem C5_order_independence (op : Nat) {fs1 fs2 : List OpMaskField}
    {vs1 vs2 : List Nat} (hperm : fs1.Perm fs2)
    (hpermz : (fs1.zip vs1).Perm (fs2.zip vs2)) :
    BuildMask fs1 = BuildMask fs2 ∧ EncodeValue op fs1 vs1 = EncodeValue op fs2 vs2 := by
  constructor
  · rw [BuildMask_eq, BuildMask_eq, maskOr_perm hperm]
  · rw [EncodeValue_eq, EncodeValue_eq, patternOr_perm hpermz]

/-- Witness for C5: the two-field builder with its fields swapped and the
arguments swapped to match. -/
theorem C5_order_independence_witness :
    BuildMask [⟨1, 1⟩, ⟨2, 1⟩] = BuildMask [⟨2, 1⟩, ⟨1, 1⟩] ∧
      EncodeValue 2 [⟨1, 1⟩, ⟨2, 1⟩] [3, 4] = EncodeValue 2 [⟨2, 1⟩, ⟨1, 1⟩] [4, 3] :=
  C5_order_independence 2 (by decide) (by decide)

/-- C6: width-correctness round trip: for a field of byte width
`1 ≤ size < 8` at offset `offset + size ≤ 8` and any unsigned value
`v < 2^(8*size)`, encoding `v` and then extracting the field's bytes back
out of the pattern (shift right by `8*offset`, mask to `8*size` bits)
recovers exactly `v`. -/
theorem C6_width_roundtrip {F : OpMaskField} {v : Nat}
    (hs1 : 1 ≤ F.size) (hs : F.size < 8) (h8 : F.offset + F.size ≤ 8)
    (hv : v < 2 ^ (F.size * 8)) :
    extractField (EncodeFieldValue F v) F = v := by
  rw [EncodeFieldValue_eq h8 hv]
  unfold extractField
  simp only [kBitsPerByte]
  rw [shiftLeft_shiftRight_self, Nat.mod_eq_of_lt hv]

/-- Witness for C6: a two-byte field at offset 2 with value `0xABCD`. -/
theorem C6_width_roundtrip_witness :
    extractField (EncodeFieldValue ⟨2, 2⟩ 0xABCD) ⟨2, 2⟩ = 0xABCD :=
  C6_width_roundtrip (by decide) (by decide) (by decide) (by decide)

/-- C7: narrowing masks ignore excluded fields: a shape mask built over any
(well-formed, pairwise disjoint) subset of fields tests true on every
record whose opcode byte and included field bytes agree with the baked-in
values — the record's remaining bytes, including any excluded field, are
unconstrained. -/
theorem C7_narrowing_ignores_excluded {op : Nat} {fs : List OpMaskField}
    {vs : List Nat} (w : Nat)
    (hop : op < 256) (hwf : ∀ F ∈ fs, F.wf) (hdisj : fs.Pairwise disjointFields)
    (hr : List.Forall₂ (fun F v => v < 2 ^ (F.size * 8)) fs vs)
    (hopw : w % 256 = op)
    (hagree : List.Forall₂ (fun F v => extractField w F = v) fs vs) :
    Test (For op fs vs) w = true :=
  (test_iff w hop (fun F hF => ⟨(hwf F hF).2.2.1, (hwf F hF).2.2.2⟩) hdisj hr).mpr
    ⟨hopw, hagree⟩

/-- Witness for C7 at the spec's narrowing scenario: the kind-only mask
(opcode 2, kind byte 0) matches the record word `0x10002`, whose excluded
rep byte is 1. -/
theorem C7_narrowing_ignores_excluded_witness :
    Test (For 2 [⟨1, 1⟩] [0]) 0x10002 = true :=
  C7_narrowing_ignores_excluded 0x10002 (by decide) (by decide) (by decide)
    (by decide) (by decide) (by decide)

/-- C8: no runtime error path: on a non-matching record `Test` is false
and `TryCast` returns the empty result; on a matching record `TryCast`
returns the same record (reinterpreted as the owning type).  Both are pure
functions of the mask and the record's leading word. -/
theorem C8_trycast_no_error (M : ShapeMask) (w : Nat) :
    (TryCast M w = none ↔ Test M w = false) ∧
      (TryCast M w = some w ↔ Test M w = true) := by
  unfold TryCast
  cases h : Test M w <;> simp [h]

/-- C9: empty field list: `MaskBuilder<Op>` with no field descriptors
yields `BuildMask() = 0xFF` and `EncodeValue() = opcode`, so the resulting
shape mask's `Test` compares exactly the opcode byte of the record's
leading word and nothing else. -/
theorem C9_empty_fields (op w : Nat) (hop : op < 256) :
    BuildMask [] = 0xFF ∧ EncodeValue op [] [] = op ∧
      (Test (For op [] []) w = true ↔ w % 256 = op) := by
  refine ⟨rfl, EncodeBaseValue_eq hop, ?_⟩
  show ((w &&& BuildMask []) == EncodeValue op [] []) = true ↔ _
  rw [beq_iff_eq]
  exact base_test_iff w hop

/-- Witness for C9 at opcode 5 and record word 0x905 (opcode byte 5). -/
theorem C9_empty_fields_witness :
    BuildMask [] = 0xFF ∧ EncodeValue 5 [] [] = 5 ∧
      (Test (For 5 [] []) 0x905 = true ↔ 0x905 % 256 = 5) :=
  C9_empty_fields 5 0x905 (by decide)

/-- C10: mutual exclusivity: two shape masks built by the same builder
(well-formed, pairwise disjoint fields) from in-range value tuples that
differ in at least one position are mutually exclusive — no leading word
passes both membership tests. -/
theorem C10_mutual_exclusion {op : Nat} {fs : List OpMaskField}
    {vs1 vs2 : List Nat} (w : Nat)
    (hop : op < 256) (hwf : ∀ F ∈ fs, F.wf) (hdisj : fs.Pairwise disjointFields)
    (hr1 : List.Forall₂ (fun F v => v < 2 ^ (F.size * 8)) fs vs1)
    (hr2 : List.Forall₂ (fun F v => v < 2 ^ (F.size * 8)) fs vs2)
    (hne : vs1 ≠ vs2) :
    ¬(Test (For op fs vs1) w = true ∧ Test (For op fs vs2) w = true) := by
  rintro ⟨h1, h2⟩
  have hwf' : ∀ F ∈ fs, F.offset + F.size ≤ 8 ∧ 1 ≤ F.offset :=
    fun F hF => ⟨(hwf F hF).2.2.1, (hwf F hF).2.2.2⟩
  have e1 := (test_iff w hop hwf' hdisj hr1).mp h1
  have e2 := (test_iff w hop hwf' hdisj hr2).mp h2
  exact hne ((forall2_eq_map e1.2).trans (forall2_eq_map e2.2).symm)

/-- Witness for C10: the one-field builder at opcode 2 with values 0 and 1
rejects the record word 2 for at least one of the two masks. -/
theorem C10_mutual_exclusion_witness :
    ¬(Test (For 2 [⟨1, 1⟩] [0]) 2 = true ∧ Test (For 2 [⟨1, 1⟩] [1]) 2 = true) :=
  C10_mutual_exclusion 2 (by decide) (by decide) (by decide) (by decide)
    (by decide) (by decide)

end Opmask
